import Mathlib

/-!
Verification of `src/hyperbolic-honeycombs/coxeter/matrix.py`: a matrix class
with algebraic-integer entries in one cyclotomic field, the Cartan-matrix
builder and the reflection-matrix builder for a Coxeter system.

The matrix code is embedded from the source. Its collaborators
(`integers.lcm`, `polynomial.IntPolynomial.cyclotomic`,
`algebraic_integers.AlgebraicInteger`) are code of the repository that is not
among the given source files; those are modelled from the spec, as noted on
each definition. An algebraic integer of the field defined by a monic integer
polynomial `b` is represented by its reduced coefficient vector: the list of
`deg b` integer coefficients of the remainder mod `b`, little-endian
(position p holds the coefficient of x^p).
-/

namespace Coxeter

/-- Integer polynomials (and raw coefficient vectors), little-endian:
position p holds the coefficient of x^p. -/
abbrev Poly := List Int

/-- The all-zero coefficient vector of the given length. -/
def polyZero (n : Nat) : Poly := List.replicate n 0

/-- Coefficient-wise addition; the longer argument's tail is kept. -/
def polyAdd : Poly → Poly → Poly
  | [], q => q
  | p, [] => p
  | a :: p, c :: q => (a + c) :: polyAdd p q

/-- Coefficient-wise negation. -/
def polyNeg (p : Poly) : Poly := p.map fun a => -a

/-- Multiplication of every coefficient by the integer c. -/
def polyScale (c : Int) (p : Poly) : Poly := p.map fun a => c * a

/-- Coefficient-wise subtraction. -/
def polySub (p q : Poly) : Poly := polyAdd p (polyNeg q)

/-- Polynomial product (convolution of the coefficient vectors). -/
def polyMul : Poly → Poly → Poly
  | [], _ => []
  | a :: p, q => polyAdd (polyScale a q) (0 :: polyMul p q)

/-- One step of division by the monic polynomial b: cancel c's top
coefficient against the matching shift of b and drop the top position. -/
def killTop (b c : Poly) : Poly :=
  (polySub c (polyZero (c.length - b.length) ++ polyScale (c.getLastD 0) b)).take
    (c.length - 1)

/-- Remainder loop: cancel top coefficients until the vector is shorter than
b; the fuel (one unit per dropped position) makes the recursion structural. -/
def reduceAux (b : Poly) : Nat → Poly → Poly
  | 0, c => c
  | fuel + 1, c => if c.length ≤ b.length - 1 then c else reduceAux b fuel (killTop b c)

/-- Pad a vector with zeros on the high end up to length d. -/
def padTo (d : Nat) (c : Poly) : Poly := c ++ polyZero (d - c.length)

/-- The reduced representation mod the monic polynomial b: the remainder of c
mod b, padded to exactly deg b coefficients. -/
def reduce (b c : Poly) : Poly := padTo (b.length - 1) (reduceAux b c.length c)

/-- Quotient loop of division by the monic polynomial b, collecting the
cancelled top coefficients (extracted from the highest power down, so
prepending builds the little-endian quotient). -/
def divAux (b : Poly) : Nat → Poly → Poly → Poly
  | 0, _, acc => acc
  | fuel + 1, c, acc =>
    if c.length < b.length then acc
    else divAux b fuel (killTop b c) (c.getLastD 0 :: acc)

/-- Exact quotient of p by the monic polynomial b. -/
def polyQuot (p b : Poly) : Poly := divAux b p.length p []

/-- The coefficient vector of x^n - 1. -/
def xPowSubOne (n : Nat) : Poly := (-1 : Int) :: (polyZero (n - 1) ++ [1])

/-- Product of the table's entries at the proper divisors of n (the table
holds the cyclotomic polynomials of index 1, 2, ... at positions 0, 1, ...). -/
def cycDivProd (t : List Poly) (n : Nat) : Poly :=
  (List.range n).foldl
    (fun acc d => if 0 < d ∧ d ∣ n then polyMul acc (t.getD (d - 1) [1]) else acc) [1]

/-- The cyclotomic polynomial of index n, from the table of all lower
indices: (x^n - 1) divided by the product of the proper divisors' ones. -/
def cycStep (t : List Poly) (n : Nat) : Poly := polyQuot (xPowSubOne n) (cycDivProd t n)

/-- The table of the cyclotomic polynomials of index 1..n. -/
def cycTable : Nat → List Poly
  | 0 => []
  | n + 1 => cycTable n ++ [cycStep (cycTable n) (n + 1)]

/-- Modelled from the spec: `polynomial.IntPolynomial.cyclotomic` is not among
the given source files. Per the spec it is the pure function returning "the
unique monic irreducible integer polynomial of degree φ(m) whose root is a
primitive m-th root of unity"; it is computed here by the standard recursion
Φ_m = (x^m - 1) / Π Φ_d over the proper divisors d of m. -/
def cyclotomic (m : Nat) : Poly := (cycTable m).getD (m - 1) [1]

/-- Modelled from the spec: `integers.lcm` is not among the given source
files. On positive integers it is the ordinary least common multiple
("commutative, associative; used via iterated fold"); the spec's fold
(§4.2) requires pairs with Coxeter entry 0 to leave the fold unchanged and
Scenario 3 fixes the result m = 2 for the all-infinite matrix, so an
argument equal to 0 leaves the other argument unchanged. -/
def lcm (a b : Nat) : Nat := if a = 0 then b else if b = 0 then a else Nat.lcm a b

/-- Modelled from the spec: `algebraic_integers.AlgebraicInteger(b, vec)` is
not among the given source files. A FieldElement is kept as its reduced
coefficient vector; the constructor reduces a raw integer coefficient vector
(of any length, e.g. length m pre-reduction) mod the base polynomial b. -/
def aintOfVec (b c : Poly) : Poly := reduce b c

/-- Modelled from the spec: `AlgebraicInteger(b, n)` on a rational integer n,
"lifted into the field": the reduced representation of the constant n. -/
def intAint (b : Poly) (n : Int) : Poly := reduce b [n]

/-- Modelled from the spec: FieldElement addition over the base field b. -/
def aintAdd (b x y : Poly) : Poly := reduce b (polyAdd x y)

/-- Modelled from the spec: FieldElement unary negation over the base field b
(the source's `-C[k][j]`). -/
def aintNeg (b x : Poly) : Poly := reduce b (polyNeg x)

/-- Modelled from the spec: FieldElement multiplication over the base field b. -/
def aintMul (b x y : Poly) : Poly := reduce b (polyMul x y)

/-- The sum of f(0), ..., f(n-1) as FieldElements over b, from the zero
element: the dot products that `np.dot` takes row by row. -/
def rangeFold (b : Poly) (f : Nat → Poly) : Nat → Poly
  | 0 => polyZero (b.length - 1)
  | n + 1 => aintAdd b (rangeFold b f n) (f n)

/-- The `Matrix` class of matrix.py: a square grid of FieldElements sharing
one base polynomial. The numpy 2-d object array `self.M` is modelled as a
total index function together with the dimension `self.dim`; indices at or
beyond `dim` are junk the source never stores. -/
structure Matrix where
  base : Poly
  dim : Nat
  entry : Nat → Nat → Poly

/-- `Matrix.is_identity` from the source: every diagonal entry passes the
rational-integer-projection test against 1 (`a.p != 1` never fires) and
every strictly-lower-triangular entry equals 0 (`a != 0` never fires for
`j in range(i)`); upper-triangular entries are never read. The projection
test `a.p == 1` and the equality `a == 0` are modelled from the spec
(AlgebraicInteger is not among the given source files): on the reduced
representation a pure integer n is represented by its lift, so each test
compares the entry with the lifted integer. -/
def Matrix.is_identity (A : Matrix) : Bool :=
  (List.range A.dim).all fun i =>
    (A.entry i i == intAint A.base 1) &&
    ((List.range i).all fun j => A.entry i j == intAint A.base 0)

/-- Entry (i, j) of a Coxeter matrix given as list of rows (0 when out of
range; the source indexes a square array). -/
def cox (M : List (List Nat)) (i j : Nat) : Nat := (M.getD i []).getD j 0

/-- The fold of `Matrix.cartan_matrix` computing the cyclotomic index:
`m = 2`, then `m = lcm(m, 2 * M[i][j])` for every i and every j < i,
exactly as the source's nested loops run it (pairs with entry 0 included
in the fold). -/
def coxLcmFold (M : List (List Nat)) : Nat :=
  (List.range M.length).foldl
    (fun m i => (List.range i).foldl (fun m j => lcm m (2 * cox M i j)) m) 2

/-- The same fold written as the spec words it: "for every ordered pair with
finite order (M[i][j]>0), fold m = lcm(m, 2·M[i][j]). Pairs with M[i][j]=0
(infinite order) do not participate in this fold." Stated from the spec for
comparison with `coxLcmFold`, which is taken from the source. -/
def coxLcmFoldSpec (M : List (List Nat)) : Nat :=
  (List.range M.length).foldl
    (fun m i =>
      (List.range i).foldl
        (fun m j => if 0 < cox M i j then lcm m (2 * cox M i j) else m) m) 2

/-- `Matrix.cartan_matrix` from the source: base polynomial = cyclotomic
polynomial of the folded index m; diagonal entries `aint(b, 2)`;
for a pair i ≠ j the loops (over j < i, reading M[i][j] and storing both
C[i][j] and C[j][i]) give the entry from the Coxeter value at
(max i j, min i j): for 2·m_ij > 0 the reduced vector with -1 at positions
m/(2 m_ij) and m - m/(2 m_ij) (the vector z built by `z[m//mij2] = -1;
z[m - m//mij2] = -1`), else `aint(b, -2)`. -/
def cartan_matrix (M : List (List Nat)) : Matrix :=
  { base := cyclotomic (coxLcmFold M)
    dim := M.length
    entry := fun i j =>
      if i = j then intAint (cyclotomic (coxLcmFold M)) 2
      else
        let m := coxLcmFold M
        let mij2 := 2 * cox M (max i j) (min i j)
        if 0 < mij2 then
          aintOfVec (cyclotomic m)
            (((List.replicate m (0 : Int)).set (m / mij2) (-1)).set (m - m / mij2) (-1))
        else intAint (cyclotomic m) (-2) }

/-- `Matrix.reflection_matrix` from the source, k taken as a Python integer:
column k is `-1` at row k and `0` elsewhere; any other column j is `1` on
the diagonal, `-C[k][j]` at row k and `0` elsewhere. The grid of C is read
only at `C[k][j]`, inside the branch `i == k` (so only when 0 ≤ k < dim and
the read is in bounds): the construction raises no exception for any k. -/
def reflection_matrix (C : Matrix) (k : Int) : Matrix :=
  { base := C.base
    dim := C.dim
    entry := fun i j =>
      if (j : Int) = k then
        if (i : Int) = k then intAint C.base (-1) else intAint C.base 0
      else if i = j then intAint C.base 1
      else if (i : Int) = k then aintNeg C.base (C.entry k.toNat j)
      else intAint C.base 0 }

/-- The matrix product `np.dot(self.M, other.M)` over the shared base field:
entry (i, j) is the sum over l of `self.M[i][l] * other.M[l][j]`. -/
def matProd (A B : Matrix) : Matrix :=
  { base := A.base
    dim := A.dim
    entry := fun i j =>
      rangeFold A.base (fun l => aintMul A.base (A.entry i l) (B.entry l j)) A.dim }

/-- An item of a sequence operand: a FieldElement, or a value of any other
type (the spec's §9 tagged-operand reading of the source's duck typing). -/
inductive VecItem where
  | elt (x : Poly)
  | nonElt
deriving DecidableEq

/-- Whether the item passes `isinstance(x, AlgebraicInteger)`. -/
def VecItem.isElt : VecItem → Bool
  | .elt _ => true
  | .nonElt => false

/-- The FieldElement an item holds (junk for a non-element; read only on
paths where every item is a FieldElement). -/
def VecItem.getElt : VecItem → Poly
  | .elt x => x
  | .nonElt => []

/-- The operand of `Matrix.__mul__`: another Matrix or a sequence. -/
inductive Operand where
  | mat (B : Matrix)
  | vec (v : List VecItem)

/-- How a multiplication fails. `incompatibleField` is the spec's name for
the failure of matrix x matrix across different base polynomials (in the
source that call falls into the sequence branch, where iterating the Matrix
yields grid rows, no row is an AlgebraicInteger, and evaluating
`len(other)` on a Matrix raises TypeError: no product escapes).
`dimensionOrTypeMismatch` is the guard's own
`raise TypeError("A list of algebraic integers with the same dimension is
expected")`. `numpyShapeMismatch` is the ValueError numpy raises inside
`np.dot` when the operands' shapes do not conform: a sequence whose length
differs from the matrix dimension, or two grids of different dimensions. -/
inductive MulErr where
  | incompatibleField
  | dimensionOrTypeMismatch
  | numpyShapeMismatch
deriving DecidableEq

/-- The result of `Matrix.__mul__`: a Matrix, or the vector `np.dot` returns. -/
inductive MulRes where
  | mat (P : Matrix)
  | vec (w : List Poly)

/-- The matrix-vector product `np.dot(self.M, other)`: one FieldElement per
row, the dot product of the row with the sequence. -/
def dotVec (A : Matrix) (v : List Poly) : List Poly :=
  (List.range A.dim).map fun i =>
    rangeFold A.base (fun l => aintMul A.base (A.entry i l) (v.getD l [])) A.dim

/-- `Matrix.__mul__` from the source. Matrix operand with the same base:
`np.dot(self.M, other.M)`, which checks the shapes first — equal dimensions
give the matrix product, different dimensions raise numpy's ValueError
(no product is produced). Matrix operand with a different base: always an
error (see `MulErr.incompatibleField`). Sequence operand: the guard raises
exactly when the sequence has the matrix's dimension AND holds a
non-FieldElement (the source's condition
`not all(isinstance(x, aint) for x in other) and len(other) == self.dim`);
past the guard, `np.dot` produces the product for a sequence of the right
length and raises ValueError for any other length. -/
def mul (A : Matrix) : Operand → Except MulErr MulRes
  | .mat B =>
    if A.base = B.base then
      if A.dim = B.dim then .ok (.mat (matProd A B))
      else .error .numpyShapeMismatch
    else .error .incompatibleField
  | .vec v =>
    if ¬(v.all VecItem.isElt = true) ∧ v.length = A.dim then
      .error .dimensionOrTypeMismatch
    else if v.length = A.dim then .ok (.vec (dotVec A (v.map VecItem.getElt)))
    else .error .numpyShapeMismatch

/-- A valid Coxeter matrix per the spec's data model: square, symmetric,
diagonal entries 1, and no off-diagonal entry of order 1. -/
def validCoxeter (M : List (List Nat)) : Bool :=
  (M.all fun r => r.length == M.length) &&
  ((List.range M.length).all fun i =>
    (List.range M.length).all fun j =>
      (cox M i j == cox M j i) &&
      (if i = j then cox M i i == 1 else !(cox M i j == 1)))

/-- Entries all of whose coefficients are zero. -/
def AllZero (p : Poly) : Prop := ∀ a ∈ p, a = 0

theorem polyAdd_length (p : Poly) : ∀ q : Poly, (polyAdd p q).length = max p.length q.length := by
  induction p with
  | nil => intro q; simp [polyAdd]
  | cons a p ih =>
    intro q
    cases q with
    | nil => simp [polyAdd]
    | cons c q => simp only [polyAdd, List.length_cons, ih]; omega

theorem polyNeg_length (p : Poly) : (polyNeg p).length = p.length := by
  simp [polyNeg]

theorem polyScale_length (c : Int) (p : Poly) : (polyScale c p).length = p.length := by
  simp [polyScale]

theorem polySub_length (p q : Poly) : (polySub p q).length = max p.length q.length := by
  rw [polySub, polyAdd_length, polyNeg_length]

theorem polyZero_length (n : Nat) : (polyZero n).length = n := by
  simp [polyZero]

theorem killTop_length (b c : Poly) : (killTop b c).length = c.length - 1 := by
  rw [killTop, List.length_take, polySub_length]
  simp only [List.length_append, polyZero_length, polyScale_length]
  omega

theorem reduceAux_length_le (b : Poly) :
    ∀ fuel c, c.length ≤ (b.length - 1) + fuel → (reduceAux b fuel c).length ≤ b.length - 1 := by
  intro fuel
  induction fuel with
  | zero => intro c h; simpa [reduceAux] using h
  | succ n ih =>
    intro c h
    rw [reduceAux]
    split
    · assumption
    · apply ih; rw [killTop_length]; omega

theorem reduce_length (b c : Poly) : (reduce b c).length = b.length - 1 := by
  have h := reduceAux_length_le b c.length c (by omega)
  rw [reduce, padTo, List.length_append, polyZero_length]
  omega

theorem reduceAux_of_le (b c : Poly) (h : c.length ≤ b.length - 1) :
    reduceAux b c.length c = c := by
  cases c with
  | nil => rfl
  | cons a t => rw [show (a :: t).length = t.length + 1 from rfl, reduceAux, if_pos h]

theorem reduce_small (b c : Poly) (h : c.length ≤ b.length - 1) :
    reduce b c = padTo (b.length - 1) c := by
  rw [reduce, reduceAux_of_le b c h]

theorem reduce_eq_self (b c : Poly) (h : c.length = b.length - 1) : reduce b c = c := by
  rw [reduce_small b c (le_of_eq h), padTo, h, Nat.sub_self]
  simp [polyZero]

theorem polyAdd_polyZero_right (p : Poly) :
    ∀ n, polyAdd p (polyZero n) = p ++ polyZero (n - p.length) := by
  induction p with
  | nil => intro n; simp [polyAdd, polyZero]
  | cons a p ih =>
    intro n
    cases n with
    | zero => simp [polyAdd, polyZero]
    | succ n =>
      simp only [polyZero, List.replicate_succ, polyAdd, add_zero, List.length_cons,
        Nat.succ_sub_succ, List.cons_append]
      exact congrArg (a :: ·) (ih n)

theorem polyAdd_polyZero_left (q : Poly) :
    ∀ n, n ≤ q.length → polyAdd (polyZero n) q = q := by
  induction q with
  | nil =>
    intro n h
    have hn : n = 0 := by simpa using h
    subst hn
    rfl
  | cons c q ih =>
    intro n h
    cases n with
    | zero => rfl
    | succ n =>
      simp only [polyZero, List.replicate_succ, polyAdd, zero_add]
      exact congrArg (c :: ·) (ih n (by simpa using h))

theorem polyAdd_neg_self (p : Poly) : polyAdd p (polyNeg p) = polyZero p.length := by
  induction p with
  | nil => rfl
  | cons a p ih => simp [polyNeg, polyAdd, polyZero, List.replicate_succ] at ih ⊢; exact ih

theorem polyNeg_add_self (p : Poly) : polyAdd (polyNeg p) p = polyZero p.length := by
  induction p with
  | nil => rfl
  | cons a p ih => simp [polyNeg, polyAdd, polyZero, List.replicate_succ] at ih ⊢; exact ih

theorem polyNeg_polyZero (n : Nat) : polyNeg (polyZero n) = polyZero n := by
  simp [polyNeg, polyZero]

theorem polyScale_polyZero (c : Int) (n : Nat) : polyScale c (polyZero n) = polyZero n := by
  simp [polyScale, polyZero]

theorem polyScale_zero (p : Poly) : polyScale 0 p = polyZero p.length := by
  induction p with
  | nil => rfl
  | cons a p ih =>
    simp only [polyScale, polyZero, List.map_cons, zero_mul, List.length_cons,
      List.replicate_succ] at ih ⊢
    exact congrArg (0 :: ·) ih

theorem polyZero_append_polyZero (m n : Nat) :
    polyZero m ++ polyZero n = polyZero (m + n) := by
  simp [polyZero, ← List.replicate_add]

theorem polySub_polyZero (p : Poly) (n : Nat) (h : n ≤ p.length) :
    polySub p (polyZero n) = p := by
  rw [polySub, polyNeg_polyZero, polyAdd_polyZero_right, Nat.sub_eq_zero_of_le h]
  simp [polyZero]

theorem killTop_append_zero (b c : Poly) (h : b.length ≤ c.length + 1) :
    killTop b (c ++ [0]) = c := by
  have h1 : (c ++ [(0 : Int)]).getLastD 0 = 0 := by simp
  have h2 : (c ++ [(0 : Int)]).length = c.length + 1 := by simp
  rw [killTop, h1, h2, polyScale_zero, polyZero_append_polyZero,
    Nat.sub_add_cancel h, polySub_polyZero _ _ (by simp), Nat.add_sub_cancel]
  exact List.take_left c [0]

theorem reduceAux_succ (b : Poly) (fuel : Nat) (c : Poly) :
    reduceAux b (fuel + 1) c =
      if c.length ≤ b.length - 1 then c else reduceAux b fuel (killTop b c) := rfl

theorem reduce_append_zero (b c : Poly) : reduce b (c ++ [0]) = reduce b c := by
  by_cases h : (c ++ [(0 : Int)]).length ≤ b.length - 1
  · rw [reduce_small b _ h, reduce_small b c (by simp at h ⊢; omega)]
    simp only [List.length_append, List.length_singleton, padTo, List.append_assoc]
    have hlen : b.length - 1 - c.length = (b.length - 1 - (c.length + 1)) + 1 := by
      simp at h; omega
    rw [hlen]
    simp [polyZero, List.replicate_succ]
  · have h2 : (c ++ [(0 : Int)]).length = c.length + 1 := by simp
    have hb : b.length ≤ c.length + 1 := by simp at h; omega
    rw [reduce, h2, reduceAux_succ, if_neg h, killTop_append_zero b c hb]
    rfl

theorem reduce_append_polyZero (b c : Poly) :
    ∀ k, reduce b (c ++ polyZero k) = reduce b c := by
  intro k
  induction k generalizing c with
  | zero => simp [polyZero]
  | succ k ih =>
    have : c ++ polyZero (k + 1) = (c ++ [0]) ++ polyZero k := by
      simp [polyZero, List.replicate_succ, List.append_assoc]
    rw [this, ih (c ++ [0]), reduce_append_zero]

theorem reduce_polyZero (b : Poly) (n : Nat) :
    reduce b (polyZero n) = polyZero (b.length - 1) := by
  have h := reduce_append_polyZero b [] n
  simp only [List.nil_append] at h
  rw [h]
  rfl

theorem allZero_polyZero (n : Nat) : AllZero (polyZero n) := by
  intro a ha
  exact List.eq_of_mem_replicate ha

theorem eq_polyZero_of_allZero {p : Poly} (h : AllZero p) : p = polyZero p.length := by
  induction p with
  | nil => rfl
  | cons a p ih =>
    have ha : a = 0 := h a (List.mem_cons_self a p)
    have hp : AllZero p := fun x hx => h x (List.mem_cons_of_mem a hx)
    simp only [polyZero, List.length_cons, List.replicate_succ]
    rw [ha]
    exact congrArg (0 :: ·) (ih hp)

theorem allZero_cons {p : Poly} (h : AllZero p) : AllZero (0 :: p) := by
  intro a ha
  rcases List.mem_cons.mp ha with h0 | hp
  · exact h0
  · exact h a hp

theorem allZero_polyScale {p : Poly} (c : Int) (h : AllZero p) : AllZero (polyScale c p) := by
  intro a ha
  rcases List.mem_map.mp ha with ⟨x, hx, hax⟩
  rw [← hax, h x hx, mul_zero]

theorem allZero_polyScale_zero (p : Poly) : AllZero (polyScale 0 p) := by
  intro a ha
  rcases List.mem_map.mp ha with ⟨x, _, hax⟩
  rw [← hax, zero_mul]

theorem allZero_polyAdd {p q : Poly} (hp : AllZero p) (hq : AllZero q) :
    AllZero (polyAdd p q) := by
  induction p generalizing q with
  | nil => simpa [polyAdd] using hq
  | cons a p ih =>
    cases q with
    | nil => simpa [polyAdd] using hp
    | cons c q =>
      have ha : a = 0 := hp a (List.mem_cons_self a p)
      have hc : c = 0 := hq c (List.mem_cons_self c q)
      have hp2 : AllZero p := fun x hx => hp x (List.mem_cons_of_mem a hx)
      have hq2 : AllZero q := fun x hx => hq x (List.mem_cons_of_mem c hx)
      intro x hx
      rcases List.mem_cons.mp hx with h0 | hrest
      · rw [h0, ha, hc]; rfl
      · exact ih hp2 hq2 x hrest

theorem allZero_polyMul_right {q : Poly} (hq : AllZero q) :
    ∀ p, AllZero (polyMul p q) := by
  intro p
  induction p with
  | nil => intro a ha; simp [polyMul] at ha
  | cons a p ih =>
    exact allZero_polyAdd (allZero_polyScale a hq) (allZero_cons ih)

theorem allZero_polyMul_left {p : Poly} (hp : AllZero p) (q : Poly) :
    AllZero (polyMul p q) := by
  induction p with
  | nil => intro a ha; simp [polyMul] at ha
  | cons a p ihp =>
    have ha : a = 0 := hp a (List.mem_cons_self a p)
    have hp2 : AllZero p := fun x hx => hp x (List.mem_cons_of_mem a hx)
    rw [polyMul, ha]
    exact allZero_polyAdd (allZero_polyScale_zero q) (allZero_cons (ihp hp2))

theorem reduce_allZero {c : Poly} (b : Poly) (h : AllZero c) :
    reduce b c = polyZero (b.length - 1) := by
  rw [eq_polyZero_of_allZero h, reduce_polyZero]

theorem intAint_length (b : Poly) (n : Int) : (intAint b n).length = b.length - 1 :=
  reduce_length b [n]

theorem aintNeg_length (b x : Poly) : (aintNeg b x).length = b.length - 1 :=
  reduce_length b (polyNeg x)

theorem aintMul_length (b x y : Poly) : (aintMul b x y).length = b.length - 1 :=
  reduce_length b (polyMul x y)

theorem aintAdd_length (b x y : Poly) : (aintAdd b x y).length = b.length - 1 :=
  reduce_length b (polyAdd x y)

theorem intAint_zero (b : Poly) : intAint b 0 = polyZero (b.length - 1) := by
  rw [intAint, show [(0 : Int)] = polyZero 1 from rfl, reduce_polyZero]

theorem intAint_of_pos (b : Poly) (n : Int) (hd : 0 < b.length - 1) :
    intAint b n = n :: polyZero (b.length - 1 - 1) := by
  rw [intAint, reduce_small b [n] (by simp only [List.length_singleton]; omega), padTo]
  rfl

theorem aintNeg_reduced (b x : Poly) (h : x.length = b.length - 1) :
    aintNeg b x = polyNeg x := by
  rw [aintNeg, reduce_eq_self b _ (by rw [polyNeg_length, h])]

theorem aintNeg_intAint (b : Poly) (n : Int) :
    aintNeg b (intAint b n) = intAint b (-n) := by
  rcases Nat.eq_zero_or_pos (b.length - 1) with hd | hd
  · have h1 : (aintNeg b (intAint b n)).length = 0 := (aintNeg_length b _).trans hd
    have h2 : (intAint b (-n)).length = 0 := (intAint_length b _).trans hd
    rw [List.length_eq_zero] at h1 h2
    rw [h1, h2]
  · rw [aintNeg_reduced b _ ((intAint_length b n).symm ▸ rfl), intAint_of_pos b n hd,
      intAint_of_pos b (-n) hd, polyNeg, List.map_cons]
    rw [show (polyZero (b.length - 1 - 1)).map (fun a => -a) = polyNeg (polyZero _) from rfl,
      polyNeg_polyZero]

theorem aintAdd_zeroE_left (b x : Poly) (h : x.length = b.length - 1) :
    aintAdd b (polyZero (b.length - 1)) x = x := by
  rw [aintAdd, polyAdd_polyZero_left x _ (le_of_eq h.symm), reduce_eq_self b x h]

theorem aintAdd_zeroE_right (b x : Poly) (h : x.length = b.length - 1) :
    aintAdd b x (polyZero (b.length - 1)) = x := by
  rw [aintAdd, polyAdd_polyZero_right, h, Nat.sub_self]
  rw [show polyZero 0 = ([] : Poly) from rfl, List.append_nil, reduce_eq_self b x h]

theorem aintAdd_neg_right (b x : Poly) (h : x.length = b.length - 1) :
    aintAdd b x (aintNeg b x) = polyZero (b.length - 1) := by
  rw [aintNeg_reduced b x h, aintAdd, polyAdd_neg_self, h, reduce_polyZero]

theorem aintAdd_neg_left (b x : Poly) (h : x.length = b.length - 1) :
    aintAdd b (aintNeg b x) x = polyZero (b.length - 1) := by
  rw [aintNeg_reduced b x h, aintAdd, polyNeg_add_self, h, reduce_polyZero]

theorem aintMul_zeroE_left (b x : Poly) (n : Nat) :
    aintMul b (polyZero n) x = polyZero (b.length - 1) := by
  rw [aintMul]
  exact reduce_allZero b (allZero_polyMul_left (allZero_polyZero n) x)

theorem aintMul_zeroE_right (b x : Poly) (n : Nat) :
    aintMul b x (polyZero n) = polyZero (b.length - 1) := by
  rw [aintMul]
  exact reduce_allZero b (allZero_polyMul_right (allZero_polyZero n) x)

theorem polyAdd_nil_right (p : Poly) : polyAdd p [] = p := by cases p <;> rfl

theorem polyMul_one (k : Nat) :
    ∀ p : Poly, p ≠ [] → polyMul p (1 :: polyZero k) = p ++ polyZero k := by
  intro p
  induction p with
  | nil => intro h; exact absurd rfl h
  | cons a p ih =>
    intro _
    have hscale : polyScale a (1 :: polyZero k) = a :: polyZero k := by
      show (a * 1) :: polyScale a (polyZero k) = a :: polyZero k
      rw [mul_one, polyScale_polyZero]
    cases p with
    | nil =>
      rw [show polyMul [a] (1 :: polyZero k)
            = polyAdd (polyScale a (1 :: polyZero k)) (0 :: polyMul [] (1 :: polyZero k))
          from rfl]
      rw [hscale, show polyMul ([] : Poly) (1 :: polyZero k) = [] from rfl]
      rw [show polyAdd (a :: polyZero k) (0 :: [])
            = (a + 0) :: polyAdd (polyZero k) [] from rfl]
      rw [add_zero, polyAdd_nil_right]
      rfl
    | cons c t =>
      rw [show polyMul (a :: c :: t) (1 :: polyZero k)
            = polyAdd (polyScale a (1 :: polyZero k)) (0 :: polyMul (c :: t) (1 :: polyZero k))
          from rfl]
      rw [hscale, ih (by simp)]
      rw [show polyAdd (a :: polyZero k) (0 :: ((c :: t) ++ polyZero k))
            = (a + 0) :: polyAdd (polyZero k) ((c :: t) ++ polyZero k) from rfl]
      rw [add_zero, polyAdd_polyZero_left _ _ (by simp [polyZero]; omega)]
      rfl

theorem aintMul_one_right (b x : Poly) (h : x.length = b.length - 1) :
    aintMul b x (intAint b 1) = x := by
  rcases Nat.eq_zero_or_pos (b.length - 1) with hd | hd
  · have h1 : (aintMul b x (intAint b 1)).length = 0 := (aintMul_length b _ _).trans hd
    rw [List.length_eq_zero] at h1
    have h2 : x = [] := List.length_eq_zero.mp (h.trans hd)
    rw [h1, h2]
  · have hx : x ≠ [] := by
      intro hnil
      rw [hnil] at h
      simp at h
      omega
    rw [intAint_of_pos b 1 hd, aintMul, polyMul_one _ x hx, reduce_append_polyZero,
      reduce_eq_self b x h]

theorem aintMul_negOne_left (b x : Poly) :
    aintMul b (intAint b (-1)) x = aintNeg b x := by
  rcases Nat.eq_zero_or_pos (b.length - 1) with hd | hd
  · have h1 : (aintMul b (intAint b (-1)) x).length = 0 := (aintMul_length b _ _).trans hd
    have h2 : (aintNeg b x).length = 0 := (aintNeg_length b _).trans hd
    rw [List.length_eq_zero] at h1 h2
    rw [h1, h2]
  · rw [intAint_of_pos b (-1) hd]
    have hmul : polyMul ((-1 : Int) :: polyZero (b.length - 1 - 1)) x
        = polyAdd (polyNeg x) (0 :: polyMul (polyZero (b.length - 1 - 1)) x) := by
      rw [show polyMul ((-1 : Int) :: polyZero (b.length - 1 - 1)) x
            = polyAdd (polyScale (-1) x) (0 :: polyMul (polyZero (b.length - 1 - 1)) x)
          from rfl]
      congr 1
      show x.map (fun a => (-1) * a) = x.map (fun a => -a)
      simp
    have hz : AllZero (0 :: polyMul (polyZero (b.length - 1 - 1)) x) :=
      allZero_cons (allZero_polyMul_left (allZero_polyZero _) x)
    rw [aintMul, hmul, eq_polyZero_of_allZero hz, polyAdd_polyZero_right,
      reduce_append_polyZero, aintNeg]

theorem aintMul_negOne_negOne (b : Poly) :
    aintMul b (intAint b (-1)) (intAint b (-1)) = intAint b 1 := by
  rw [aintMul_negOne_left b _, aintNeg_intAint]
  norm_num

theorem aintMul_one_one (b : Poly) :
    aintMul b (intAint b 1) (intAint b 1) = intAint b 1 :=
  aintMul_one_right b _ (intAint_length b 1)

theorem rangeFold_length (b : Poly) (f : Nat → Poly) :
    ∀ n, (rangeFold b f n).length = b.length - 1 := by
  intro n
  cases n with
  | zero => exact polyZero_length _
  | succ n => exact aintAdd_length b _ _

theorem rangeFold_zero (b : Poly) (f : Nat → Poly) :
    ∀ n, (∀ l, l < n → f l = polyZero (b.length - 1)) →
      rangeFold b f n = polyZero (b.length - 1) := by
  intro n
  induction n with
  | zero => intro _; rfl
  | succ n ih =>
    intro h
    rw [rangeFold, ih (fun l hl => h l (Nat.lt_succ_of_lt hl)), h n (Nat.lt_succ_self n)]
    exact aintAdd_zeroE_left b _ (polyZero_length _)

theorem rangeFold_single (b : Poly) (f : Nat → Poly) (u : Poly)
    (hu : u.length = b.length - 1) :
    ∀ n j, j < n → f j = u → (∀ l, l < n → l ≠ j → f l = polyZero (b.length - 1)) →
      rangeFold b f n = u := by
  intro n
  induction n with
  | zero => intro j hj; omega
  | succ n ih =>
    intro j hj hfj h0
    rw [rangeFold]
    rcases eq_or_ne j n with hjn | hjn
    · subst hjn
      rw [rangeFold_zero b f j (fun l hl => h0 l (Nat.lt_succ_of_lt hl) (Nat.ne_of_lt hl)),
        hfj]
      exact aintAdd_zeroE_left b u hu
    · have hjn2 : j < n := by omega
      rw [ih j hjn2 hfj (fun l hl hne => h0 l (Nat.lt_succ_of_lt hl) hne),
        h0 n (Nat.lt_succ_self n) (fun hc => hjn hc.symm)]
      exact aintAdd_zeroE_right b u hu

theorem rangeFold_pair (b : Poly) (f : Nat → Poly) (u : Poly)
    (hu : u.length = b.length - 1) :
    ∀ n j k, j < n → k < n → j ≠ k → f j = u → f k = aintNeg b u →
      (∀ l, l < n → l ≠ j → l ≠ k → f l = polyZero (b.length - 1)) →
      rangeFold b f n = polyZero (b.length - 1) := by
  intro n
  induction n with
  | zero => intro j k hj; omega
  | succ n ih =>
    intro j k hj hk hjk hfj hfk h0
    rw [rangeFold]
    by_cases hkn : k = n
    · subst hkn
      have hjn : j < k := by omega
      rw [rangeFold_single b f u hu k j hjn hfj
          (fun l hl hne => h0 l (Nat.lt_succ_of_lt hl) hne (Nat.ne_of_lt hl)), hfk]
      exact aintAdd_neg_right b u hu
    · by_cases hjn : j = n
      · subst hjn
        have hkn2 : k < j := by omega
        rw [rangeFold_single b f (aintNeg b u) (aintNeg_length b u) j k hkn2 hfk
            (fun l hl hne => h0 l (Nat.lt_succ_of_lt hl) (Nat.ne_of_lt hl) hne), hfj]
        exact aintAdd_neg_left b u hu
      · rw [ih j k (by omega) (by omega) hjk hfj hfk
          (fun l hl => h0 l (Nat.lt_succ_of_lt hl)),
          h0 n (Nat.lt_succ_self n) (fun hc => hjn hc.symm) (fun hc => hkn hc.symm)]
        exact aintAdd_zeroE_left b _ (polyZero_length _)

theorem reflection_entry (C : Matrix) (k : Nat) (i j : Nat) :
    (reflection_matrix C (k : Int)).entry i j =
      if j = k then (if i = k then intAint C.base (-1) else intAint C.base 0)
      else if i = j then intAint C.base 1
      else if i = k then aintNeg C.base (C.entry k j)
      else intAint C.base 0 := by
  simp only [reflection_matrix, Nat.cast_inj, Int.toNat_natCast]

theorem reflSq_entry (C : Matrix) (k : Nat) (hk : k < C.dim) (i j : Nat)
    (hj : j < C.dim) :
    (matProd (reflection_matrix C (k : Int)) (reflection_matrix C (k : Int))).entry i j =
      if i = j then intAint C.base 1 else intAint C.base 0 := by
  have hRe := reflection_entry C k
  show rangeFold C.base
      (fun l => aintMul C.base ((reflection_matrix C (k : Int)).entry i l)
        ((reflection_matrix C (k : Int)).entry l j)) C.dim
    = if i = j then intAint C.base 1 else intAint C.base 0
  by_cases hjk : j = k
  · by_cases hik : i = k
    · rw [if_pos (hik.trans hjk.symm)]
      refine rangeFold_single C.base _ (intAint C.base 1) (intAint_length C.base 1)
        C.dim k hk ?_ ?_
      · show aintMul C.base ((reflection_matrix C (k : Int)).entry i k)
            ((reflection_matrix C (k : Int)).entry k j) = intAint C.base 1
        rw [hRe i k, hRe k j]
        simp only [hik, hjk, if_pos rfl]
        exact aintMul_negOne_negOne C.base
      · intro l hl hlk
        show aintMul C.base ((reflection_matrix C (k : Int)).entry i l)
            ((reflection_matrix C (k : Int)).entry l j) = polyZero (C.base.length - 1)
        rw [hRe l j, if_pos hjk, if_neg hlk, intAint_zero, aintMul_zeroE_right]
    · rw [if_neg (fun h : i = j => hik (h.trans hjk))]
      rw [intAint_zero]
      apply rangeFold_zero
      intro l hl
      show aintMul C.base ((reflection_matrix C (k : Int)).entry i l)
          ((reflection_matrix C (k : Int)).entry l j) = polyZero (C.base.length - 1)
      by_cases hlk : l = k
      · rw [hlk, hRe i k, if_pos rfl, if_neg hik, intAint_zero, aintMul_zeroE_left]
      · rw [hRe l j, if_pos hjk, if_neg hlk, intAint_zero, aintMul_zeroE_right]
  · by_cases hij : i = j
    · rw [if_pos hij]
      refine rangeFold_single C.base _ (intAint C.base 1) (intAint_length C.base 1)
        C.dim j hj ?_ ?_
      · show aintMul C.base ((reflection_matrix C (k : Int)).entry i j)
            ((reflection_matrix C (k : Int)).entry j j) = intAint C.base 1
        rw [hij, hRe j j, if_neg hjk, if_pos rfl]
        exact aintMul_one_one C.base
      · intro l hl hlj
        show aintMul C.base ((reflection_matrix C (k : Int)).entry i l)
            ((reflection_matrix C (k : Int)).entry l j) = polyZero (C.base.length - 1)
        by_cases hlk : l = k
        · rw [hij, hlk, hRe j k, if_pos rfl, if_neg hjk, intAint_zero, aintMul_zeroE_left]
        · rw [hRe l j, if_neg hjk, if_neg hlj, if_neg hlk, intAint_zero, aintMul_zeroE_right]
    · by_cases hik : i = k
      · rw [if_neg hij, intAint_zero]
        have hkj : ¬(k = j) := fun h => hij (hik.trans h)
        refine rangeFold_pair C.base _ (aintNeg C.base (C.entry k j))
          (aintNeg_length C.base _) C.dim j k hj hk (fun h => hjk h) ?_ ?_ ?_
        · show aintMul C.base ((reflection_matrix C (k : Int)).entry i j)
              ((reflection_matrix C (k : Int)).entry j j) = aintNeg C.base (C.entry k j)
          rw [hik, hRe k j, if_neg hjk, if_neg hkj, if_pos rfl,
            hRe j j, if_neg hjk, if_pos rfl]
          exact aintMul_one_right C.base _ (aintNeg_length C.base _)
        · show aintMul C.base ((reflection_matrix C (k : Int)).entry i k)
              ((reflection_matrix C (k : Int)).entry k j)
            = aintNeg C.base (aintNeg C.base (C.entry k j))
          rw [hik, hRe k k, if_pos rfl, if_pos rfl, hRe k j, if_neg hjk, if_neg hkj,
            if_pos rfl]
          exact aintMul_negOne_left C.base _
        · intro l hl hlj hlk
          show aintMul C.base ((reflection_matrix C (k : Int)).entry i l)
              ((reflection_matrix C (k : Int)).entry l j) = polyZero (C.base.length - 1)
          rw [hRe l j, if_neg hjk, if_neg hlj, if_neg hlk, intAint_zero, aintMul_zeroE_right]
      · rw [if_neg hij, intAint_zero]
        apply rangeFold_zero
        intro l hl
        show aintMul C.base ((reflection_matrix C (k : Int)).entry i l)
            ((reflection_matrix C (k : Int)).entry l j) = polyZero (C.base.length - 1)
        by_cases hlj : l = j
        · rw [hlj, hRe i j, if_neg hjk, if_neg hij, if_neg hik, intAint_zero,
            aintMul_zeroE_left]
        · by_cases hlk : l = k
          · rw [hlk, hRe i k, if_pos rfl, if_neg hik, intAint_zero, aintMul_zeroE_left]
          · rw [hRe l j, if_neg hjk, if_neg hlj, if_neg hlk, intAint_zero,
              aintMul_zeroE_right]

theorem is_identity_true_of (A : Matrix)
    (h1 : ∀ i, i < A.dim → A.entry i i = intAint A.base 1)
    (h0 : ∀ i j, i < A.dim → j < i → A.entry i j = intAint A.base 0) :
    A.is_identity = true := by
  rw [Matrix.is_identity, List.all_eq_true]
  intro i hi
  rw [List.mem_range] at hi
  rw [Bool.and_eq_true]
  constructor
  · rw [h1 i hi]
    exact beq_self_eq_true _
  · rw [List.all_eq_true]
    intro j hj
    rw [List.mem_range] at hj
    rw [h0 i j hi hj]
    exact beq_self_eq_true _

theorem foldl_congr_fun {α β : Type} (f g : α → β → α) (h : ∀ a x, f a x = g a x) :
    ∀ (l : List β) (a : α), l.foldl f a = l.foldl g a := by
  intro l
  induction l with
  | nil => intro a; rfl
  | cons x xs ih => intro a; rw [List.foldl_cons, List.foldl_cons, h, ih]

theorem lcm_zero_right (a : Nat) : lcm a 0 = a := by
  by_cases h : a = 0 <;> simp [lcm, h]

theorem list_all_congr {α : Type} (l : List α) (f g : α → Bool)
    (h : ∀ x ∈ l, f x = g x) : l.all f = l.all g := by
  induction l with
  | nil => rfl
  | cons x xs ih =>
    rw [List.all_cons, List.all_cons, h x (List.mem_cons_self x xs),
      ih fun y hy => h y (List.mem_cons_of_mem x hy)]

/-- C1: for every valid Cartan matrix (built by cartan_matrix from a valid
Coxeter matrix M) and every generator index k with k < dim, the product
reflection_matrix(C, k) x reflection_matrix(C, k) is produced (the bases
agree) and is_identity returns true on it. -/
theorem C1_reflection_involution (M : List (List Nat)) (_hM : validCoxeter M = true)
    (k : Nat) (hk : k < (cartan_matrix M).dim) :
    mul (reflection_matrix (cartan_matrix M) (k : Int))
        (Operand.mat (reflection_matrix (cartan_matrix M) (k : Int)))
      = Except.ok (MulRes.mat (matProd (reflection_matrix (cartan_matrix M) (k : Int))
          (reflection_matrix (cartan_matrix M) (k : Int))))
    ∧ Matrix.is_identity (matProd (reflection_matrix (cartan_matrix M) (k : Int))
        (reflection_matrix (cartan_matrix M) (k : Int))) = true := by
  constructor
  · simp [mul]
  · apply is_identity_true_of
    · intro i hi
      have h := reflSq_entry (cartan_matrix M) k hk i i hi
      rw [if_pos rfl] at h
      exact h
    · intro i j hi hj
      have h := reflSq_entry (cartan_matrix M) k hk i j (lt_trans hj hi)
      rw [if_neg (by omega : ¬i = j)] at h
      exact h

/-- C1 witness: the involution at the concrete Coxeter matrix [[1,0],[0,1]]
and k = 0. -/
theorem C1_reflection_involution_witness :
    validCoxeter [[1, 0], [0, 1]] = true ∧ 0 < (cartan_matrix [[1, 0], [0, 1]]).dim ∧
    Matrix.is_identity
        (matProd (reflection_matrix (cartan_matrix [[1, 0], [0, 1]]) ((0 : Nat) : Int))
          (reflection_matrix (cartan_matrix [[1, 0], [0, 1]]) ((0 : Nat) : Int)))
      = true :=
  ⟨by decide, by decide,
    (C1_reflection_involution [[1, 0], [0, 1]] (by decide) 0 (by decide)).2⟩

/-- C2: the source's lcm fold is the spec's fold in which pairs with Coxeter
entry 0 do not participate (an entry 0 leaves the accumulator unchanged),
and on the Coxeter matrix [[1,0],[0,1]] the computed index is m = 2, the
base is cyclotomic(2), the off-diagonal entries are the lifted -2 and the
diagonal entries the lifted 2. -/
theorem C2_lcm_fold_skips_infinite :
    (∀ M : List (List Nat), coxLcmFold M = coxLcmFoldSpec M) ∧
    coxLcmFold [[1, 0], [0, 1]] = 2 ∧
    (cartan_matrix [[1, 0], [0, 1]]).base = cyclotomic 2 ∧
    (cartan_matrix [[1, 0], [0, 1]]).entry 0 1 = intAint (cyclotomic 2) (-2) ∧
    (cartan_matrix [[1, 0], [0, 1]]).entry 1 0 = intAint (cyclotomic 2) (-2) ∧
    (cartan_matrix [[1, 0], [0, 1]]).entry 0 0 = intAint (cyclotomic 2) 2 ∧
    (cartan_matrix [[1, 0], [0, 1]]).entry 1 1 = intAint (cyclotomic 2) 2 := by
  refine ⟨?_, by decide, by decide, by decide, by decide, by decide, by decide⟩
  intro M
  rw [coxLcmFold, coxLcmFoldSpec]
  apply foldl_congr_fun
  intro m i
  apply foldl_congr_fun
  intro a j
  by_cases h : 0 < cox M i j
  · rw [if_pos h]
  · rw [if_neg h]
    have h0 : cox M i j = 0 := by omega
    rw [h0, Nat.mul_zero, lcm_zero_right]

/-- C3: evaluation of __mul__ at the failing input, a 2 x 2 matrix times the
length-1 sequence holding one FieldElement: the guard condition
(non-FieldElement present AND length equal to dim) is false, np.dot's shape
check raises ValueError, and the raised error is not the
DimensionOrTypeMismatch the claim requires. -/
theorem C3_wrong_length_vector_numpy_error :
    mul (cartan_matrix [[1, 0], [0, 1]])
        (Operand.vec [VecItem.elt (intAint (cyclotomic 2) 1)])
      = Except.error MulErr.numpyShapeMismatch ∧
    MulErr.numpyShapeMismatch ≠ MulErr.dimensionOrTypeMismatch :=
  ⟨rfl, by decide⟩

/-- C4 counterexample: two Cartan matrices over the same base field (both
have cyclotomic index 6) but of dimensions 2 and 3: the base polynomials are
equal, yet the multiplication produces no matrix product — np.dot's shape
check raises numpy's ValueError — so the claim's equal-bases half fails as
stated (and the raised error is not IncompatibleField either). -/
theorem C4_counterexample :
    (cartan_matrix [[1, 3], [3, 1]]).base
      = (cartan_matrix [[1, 3, 3], [3, 1, 3], [3, 3, 1]]).base ∧
    (cartan_matrix [[1, 3], [3, 1]]).dim
      ≠ (cartan_matrix [[1, 3, 3], [3, 1, 3], [3, 3, 1]]).dim ∧
    mul (cartan_matrix [[1, 3], [3, 1]])
        (Operand.mat (cartan_matrix [[1, 3, 3], [3, 1, 3], [3, 3, 1]]))
      = Except.error MulErr.numpyShapeMismatch ∧
    MulErr.numpyShapeMismatch ≠ MulErr.incompatibleField :=
  ⟨by decide, by decide, rfl, by decide⟩

/-- C4 (amended): matrix x matrix multiplication across different base
polynomials fails with the IncompatibleField error; with equal bases and
equal dimensions it produces the matrix product, whose (i, j) entry is the
sum over l of the FieldElement products of A's row i and B's column j;
with equal bases but different dimensions np.dot's shape check fails
(numpy's ValueError), so no product is produced. -/
theorem C4_field_mismatch (A B : Matrix) :
    (A.base ≠ B.base → mul A (Operand.mat B) = Except.error MulErr.incompatibleField) ∧
    (A.base = B.base → A.dim = B.dim →
      mul A (Operand.mat B) = Except.ok (MulRes.mat (matProd A B)) ∧
      ∀ i j, (matProd A B).entry i j =
        rangeFold A.base (fun l => aintMul A.base (A.entry i l) (B.entry l j)) A.dim) ∧
    (A.base = B.base → A.dim ≠ B.dim →
      mul A (Operand.mat B) = Except.error MulErr.numpyShapeMismatch) := by
  refine ⟨fun h => ?_, fun h hd => ⟨?_, fun i j => rfl⟩, fun h hd => ?_⟩
  · simp [mul, h]
  · simp [mul, h, hd]
  · simp [mul, h, hd]

/-- C4 witness: matrices over the cyclotomic indices 2 and 6 are rejected
with IncompatibleField; a conformable product over one shared field is
produced; a non-conformable equal-base pair fails with the shape error. -/
theorem C4_witness :
    mul (cartan_matrix [[1, 0], [0, 1]]) (Operand.mat (cartan_matrix [[1, 3], [3, 1]]))
      = Except.error MulErr.incompatibleField ∧
    mul (cartan_matrix [[1, 0], [0, 1]]) (Operand.mat (cartan_matrix [[1, 0], [0, 1]]))
      = Except.ok (MulRes.mat
          (matProd (cartan_matrix [[1, 0], [0, 1]]) (cartan_matrix [[1, 0], [0, 1]]))) ∧
    mul (cartan_matrix [[1, 3], [3, 1]])
        (Operand.mat (cartan_matrix [[1, 3, 3], [3, 1, 3], [3, 3, 1]]))
      = Except.error MulErr.numpyShapeMismatch :=
  ⟨(C4_field_mismatch _ _).1 (by decide), ((C4_field_mismatch _ _).2.1 rfl rfl).1,
    (C4_field_mismatch _ _).2.2 (by decide) (by decide)⟩

/-- C5 counterexample: at the Cartan matrix of [[1,0],[0,1]] and the
out-of-range index k = 2 = dim, reflection_matrix raises nothing and
returns the identity matrix (is_identity holds and every entry is the
lifted identity entry), so no IndexOutOfRange failure occurs. -/
theorem C5_counterexample :
    Matrix.is_identity (reflection_matrix (cartan_matrix [[1, 0], [0, 1]]) 2) = true ∧
    (reflection_matrix (cartan_matrix [[1, 0], [0, 1]]) 2).entry 0 0
      = intAint (cartan_matrix [[1, 0], [0, 1]]).base 1 ∧
    (reflection_matrix (cartan_matrix [[1, 0], [0, 1]]) 2).entry 0 1
      = intAint (cartan_matrix [[1, 0], [0, 1]]).base 0 ∧
    (reflection_matrix (cartan_matrix [[1, 0], [0, 1]]) 2).entry 1 0
      = intAint (cartan_matrix [[1, 0], [0, 1]]).base 0 ∧
    (reflection_matrix (cartan_matrix [[1, 0], [0, 1]]) 2).entry 1 1
      = intAint (cartan_matrix [[1, 0], [0, 1]]).base 1 := by
  decide

/-- C5 (amended): reflection_matrix performs no validation of k: for every
Cartan matrix C and every integer k outside 0 <= k < C.dim the construction
raises nothing (the grid of C is never read), and the returned matrix is the
identity over C's base field. -/
theorem C5_amended_no_validation (C : Matrix) (k : Int)
    (hout : k < 0 ∨ (C.dim : Int) ≤ k) (i j : Nat) (hi : i < C.dim) (hj : j < C.dim) :
    (reflection_matrix C k).entry i j =
      if i = j then intAint C.base 1 else intAint C.base 0 := by
  have h1 : ¬((j : Int) = k) := by rcases hout with h | h <;> omega
  have h2 : ¬((i : Int) = k) := by rcases hout with h | h <;> omega
  show (if (j : Int) = k then
      if (i : Int) = k then intAint C.base (-1) else intAint C.base 0
    else if i = j then intAint C.base 1
    else if (i : Int) = k then aintNeg C.base (C.entry k.toNat j)
    else intAint C.base 0) = _
  rw [if_neg h1]
  by_cases hij : i = j
  · rw [if_pos hij, if_pos hij]
  · rw [if_neg hij, if_neg hij, if_neg h2]

/-- C5 amended witness: at the Cartan matrix of [[1,0],[0,1]] and k = -1. -/
theorem C5_amended_witness :
    ((-1 : Int) < 0 ∨ ((cartan_matrix [[1, 0], [0, 1]]).dim : Int) ≤ -1) ∧
    (reflection_matrix (cartan_matrix [[1, 0], [0, 1]]) (-1)).entry 0 1
      = intAint (cartan_matrix [[1, 0], [0, 1]]).base 0 := by
  refine ⟨Or.inl (by decide), ?_⟩
  have h := C5_amended_no_validation (cartan_matrix [[1, 0], [0, 1]]) (-1)
    (Or.inl (by decide)) 0 1 (by decide) (by decide)
  simpa using h

/-- C6: is_identity returns true exactly when every diagonal entry's
rational-integer projection equals 1 and every strictly-lower-triangular
entry equals the zero element; and replacing the strictly-upper-triangular
entries by anything leaves its verdict unchanged (they are not examined). -/
theorem C6_is_identity_iff (A : Matrix) (f : Nat → Nat → Poly) :
    (A.is_identity = true ↔
      (∀ i, i < A.dim → A.entry i i = intAint A.base 1) ∧
      (∀ i j, i < A.dim → j < i → A.entry i j = intAint A.base 0)) ∧
    Matrix.is_identity
        { A with entry := fun i j => if i < j then f i j else A.entry i j }
      = A.is_identity := by
  constructor
  · constructor
    · intro h
      rw [Matrix.is_identity, List.all_eq_true] at h
      constructor
      · intro i hi
        have hx := h i (List.mem_range.mpr hi)
        rw [Bool.and_eq_true] at hx
        exact eq_of_beq hx.1
      · intro i j hi hj
        have hx := h i (List.mem_range.mpr hi)
        rw [Bool.and_eq_true] at hx
        have h2 := hx.2
        rw [List.all_eq_true] at h2
        exact eq_of_beq (h2 j (List.mem_range.mpr hj))
    · rintro ⟨h1, h0⟩
      exact is_identity_true_of A h1 h0
  · rw [Matrix.is_identity, Matrix.is_identity]
    have hent : ∀ i j : Nat, ¬i < j →
        ({ A with entry := fun i j => if i < j then f i j else A.entry i j } : Matrix).entry i j
          = A.entry i j := fun i j h => if_neg h
    apply list_all_congr
    intro i _
    rw [hent i i (lt_irrefl i)]
    have : ((List.range i).all fun j =>
          ({ A with entry := fun i j => if i < j then f i j else A.entry i j } : Matrix).entry i j
            == intAint A.base 0)
        = ((List.range i).all fun j => A.entry i j == intAint A.base 0) := by
      apply list_all_congr
      intro j hj
      rw [List.mem_range] at hj
      rw [hent i j (by omega)]
    rw [this]

/-- C6 witness: the verdict is unchanged when the upper-triangular entries of
a concrete 2 x 2 identity matrix are overwritten. -/
theorem C6_witness :
    Matrix.is_identity
        { base := cyclotomic 2, dim := 2,
          entry := fun i j =>
            if i < j then intAint (cyclotomic 2) 5
            else if i = j then intAint (cyclotomic 2) 1 else intAint (cyclotomic 2) 0 }
      = Matrix.is_identity
        { base := cyclotomic 2, dim := 2,
          entry := fun i j =>
            if i = j then intAint (cyclotomic 2) 1 else intAint (cyclotomic 2) 0 } :=
  (C6_is_identity_iff
    ⟨cyclotomic 2, 2,
      fun i j => if i = j then intAint (cyclotomic 2) 1 else intAint (cyclotomic 2) 0⟩
    (fun _ _ => intAint (cyclotomic 2) 5)).2

set_option maxRecDepth 100000 in
/-- C7: for the Coxeter matrix [[1,3,2],[3,1,7],[2,7,1]] the fold computes
the minimal cyclotomic index m = 84, the base polynomial has degree
phi(84) = 24 (25 coefficients), the diagonal entries are the lifted 2,
C[0][2] and C[2][0] are the zero element, and C[0][1], C[1][2] are not. -/
theorem C7_scenario1 :
    coxLcmFold [[1, 3, 2], [3, 1, 7], [2, 7, 1]] = 84 ∧
    (cartan_matrix [[1, 3, 2], [3, 1, 7], [2, 7, 1]]).base.length = 25 ∧
    (cartan_matrix [[1, 3, 2], [3, 1, 7], [2, 7, 1]]).entry 0 0 = intAint (cyclotomic 84) 2 ∧
    (cartan_matrix [[1, 3, 2], [3, 1, 7], [2, 7, 1]]).entry 1 1 = intAint (cyclotomic 84) 2 ∧
    (cartan_matrix [[1, 3, 2], [3, 1, 7], [2, 7, 1]]).entry 2 2 = intAint (cyclotomic 84) 2 ∧
    (cartan_matrix [[1, 3, 2], [3, 1, 7], [2, 7, 1]]).entry 0 2 = intAint (cyclotomic 84) 0 ∧
    (cartan_matrix [[1, 3, 2], [3, 1, 7], [2, 7, 1]]).entry 2 0 = intAint (cyclotomic 84) 0 ∧
    (cartan_matrix [[1, 3, 2], [3, 1, 7], [2, 7, 1]]).entry 0 1 ≠ intAint (cyclotomic 84) 0 ∧
    (cartan_matrix [[1, 3, 2], [3, 1, 7], [2, 7, 1]]).entry 1 2 ≠ intAint (cyclotomic 84) 0 := by
  decide

/-- C8: for every valid Coxeter matrix M and every index i below the
dimension, the Cartan matrix's diagonal entry (i, i) is the rational
integer 2 lifted into the base field. -/
theorem C8_diagonal_two (M : List (List Nat)) (_hM : validCoxeter M = true)
    (i : Nat) (_hi : i < (cartan_matrix M).dim) :
    (cartan_matrix M).entry i i = intAint (cartan_matrix M).base 2 := by
  simp [cartan_matrix]

/-- C8 witness: the diagonal of the Cartan matrix of [[1,0],[0,1]]. -/
theorem C8_witness :
    validCoxeter [[1, 0], [0, 1]] = true ∧ 0 < (cartan_matrix [[1, 0], [0, 1]]).dim ∧
    (cartan_matrix [[1, 0], [0, 1]]).entry 0 0 = intAint (cartan_matrix [[1, 0], [0, 1]]).base 2 :=
  ⟨by decide, by decide, C8_diagonal_two [[1, 0], [0, 1]] (by decide) 0 (by decide)⟩

/-- C9: the Cartan matrix of every valid Coxeter matrix is symmetric:
entry (i, j) equals entry (j, i) for all indices. -/
theorem C9_symmetric (M : List (List Nat)) (_hM : validCoxeter M = true) (i j : Nat) :
    (cartan_matrix M).entry i j = (cartan_matrix M).entry j i := by
  rcases eq_or_ne i j with hij | hij
  · rw [hij]
  · have hmax : max i j = max j i := max_comm i j
    have hmin : min i j = min j i := min_comm i j
    simp only [cartan_matrix]
    rw [if_neg hij, if_neg (show ¬j = i from fun h => hij h.symm), hmax, hmin]

/-- C9 witness: symmetry at the Cartan matrix of [[1,3],[3,1]]. -/
theorem C9_witness :
    validCoxeter [[1, 3], [3, 1]] = true ∧
    (cartan_matrix [[1, 3], [3, 1]]).entry 0 1 = (cartan_matrix [[1, 3], [3, 1]]).entry 1 0 :=
  ⟨by decide, C9_symmetric [[1, 3], [3, 1]] (by decide) 0 1⟩

/-- C10: for every integer k at or beyond the dimension, reflection_matrix
raises no error (the embedding is a total function: the source reads C's
grid only inside the branch i == k, never taken here) and every in-range
entry of the result is the identity matrix's: the lifted 1 on the diagonal
and the lifted 0 off it. -/
theorem C10_out_of_range_identity (C : Matrix) (k : Int) (hk : (C.dim : Int) ≤ k)
    (i j : Nat) (hi : i < C.dim) (hj : j < C.dim) :
    (reflection_matrix C k).entry i j =
      if i = j then intAint C.base 1 else intAint C.base 0 := by
  have h1 : ¬((j : Int) = k) := by omega
  have h2 : ¬((i : Int) = k) := by omega
  show (if (j : Int) = k then
      if (i : Int) = k then intAint C.base (-1) else intAint C.base 0
    else if i = j then intAint C.base 1
    else if (i : Int) = k then aintNeg C.base (C.entry k.toNat j)
    else intAint C.base 0) = _
  rw [if_neg h1]
  by_cases hij : i = j
  · rw [if_pos hij, if_pos hij]
  · rw [if_neg hij, if_neg hij, if_neg h2]

/-- C10 witness: at the Cartan matrix of [[1,0],[0,1]] (dimension 2) and
k = 5. -/
theorem C10_witness :
    (((cartan_matrix [[1, 0], [0, 1]]).dim : Int) ≤ 5) ∧
    (reflection_matrix (cartan_matrix [[1, 0], [0, 1]]) 5).entry 0 0
      = intAint (cartan_matrix [[1, 0], [0, 1]]).base 1 := by
  refine ⟨by decide, ?_⟩
  have h := C10_out_of_range_identity (cartan_matrix [[1, 0], [0, 1]]) 5 (by decide)
    0 0 (by decide) (by decide)
  simpa using h

end Coxeter
